import Mathlib

/-!
Verification development for the backend orchestration layer
(`src/backend` of the repository): shallow embedding of the
rate limiter, intent classifier, search-parameter extractor,
place-result processing and the orchestrator's geocoding policy,
with theorems settling the specification's claims.
-/

namespace HeyPico

/-!
## Rate limiter (`src/backend/services/rate_limiter.py`)

Timestamps are modelled as integers (the code uses `datetime.utcnow()`
and compares differences against a `timedelta` window; only ordering and
subtraction of instants matter).  `RateLimiter.check_rate_limit` either
raises HTTP 429 (modelled as the boolean `false`, leaving the stored
list unchanged) or appends `now` to the pruned in-window list and stores
that (`true`).  An absent dictionary entry behaves exactly like `[]`
(the code initialises missing entries to `[]` before reading them).
-/

structure RateLimiter where
  limit : Nat
  window : Int

/-- The local variable `recent` of `check_rate_limit`: the stored
timestamps that still fall within the window at instant `now`
(`now - t < self.window`). -/
def recentOf (rl : RateLimiter) (stored : List Int) (now : Int) : List Int :=
  stored.filter (fun t => now - t < rl.window)

/-- Embedding of `RateLimiter.check_rate_limit` (lines 26–52): returns
whether the call was admitted, together with the stored list afterwards.
A rejected call raises before the store is written, so the list is
unchanged; an admitted call stores `recent + [now]`. -/
def check_rate_limit (rl : RateLimiter) (stored : List Int) (now : Int) : Bool × List Int :=
  if rl.limit ≤ (recentOf rl stored now).length then
    (false, stored)
  else
    (true, recentOf rl stored now ++ [now])

/-- A sequence of `check_rate_limit` calls for one token, threading the
stored list; returns the list of admission outcomes and the final store. -/
def runChecks (rl : RateLimiter) (stored : List Int) : List Int → List Bool × List Int
  | [] => ([], stored)
  | t :: rest =>
    let p := check_rate_limit rl stored t
    let q := runChecks rl p.2 rest
    (p.1 :: q.1, q.2)

theorem runChecks_cons (rl : RateLimiter) (stored : List Int) (t : Int) (rest : List Int) :
    runChecks rl stored (t :: rest)
      = ((check_rate_limit rl stored t).1
          :: (runChecks rl (check_rate_limit rl stored t).2 rest).1,
         (runChecks rl (check_rate_limit rl stored t).2 rest).2) := rfl

theorem recentOf_eq_self (rl : RateLimiter) (stored : List Int) (now : Int)
    (h : ∀ s ∈ stored, now - s < rl.window) : recentOf rl stored now = stored :=
  List.filter_eq_self.mpr (fun a ha => decide_eq_true (h a ha))

theorem check_rate_limit_reject (rl : RateLimiter) (stored : List Int) (now : Int)
    (hrec : recentOf rl stored now = stored) (hlim : rl.limit ≤ stored.length) :
    check_rate_limit rl stored now = (false, stored) := by
  rw [check_rate_limit, hrec, if_pos hlim]

theorem check_rate_limit_admit (rl : RateLimiter) (stored : List Int) (now : Int)
    (hrec : recentOf rl stored now = stored) (hlim : ¬ rl.limit ≤ stored.length) :
    check_rate_limit rl stored now = (true, stored ++ [now]) := by
  rw [check_rate_limit, hrec, if_neg hlim]

/-- Core lemma: when every timestamp involved lies within one window of
every call instant, pruning never removes anything, so the run admits
calls until the stored list reaches `limit` and rejects the rest. -/
theorem runChecks_in_window (rl : RateLimiter) :
    ∀ (ts stored : List Int),
      (∀ s t : Int, (s ∈ stored ∨ s ∈ ts) → t ∈ ts → t - s < rl.window) →
      (runChecks rl stored ts).1
        = List.replicate (min ts.length (rl.limit - stored.length)) true
          ++ List.replicate (ts.length - (rl.limit - stored.length)) false
      ∧ (runChecks rl stored ts).2 = stored ++ ts.take (rl.limit - stored.length) := by
  intro ts
  induction ts with
  | nil =>
    intro stored _
    exact ⟨by simp [runChecks], by simp [runChecks]⟩
  | cons t rest ih =>
    intro stored hW
    have hrecent : recentOf rl stored t = stored :=
      recentOf_eq_self rl stored t (fun s hs => hW s t (Or.inl hs) (List.mem_cons_self t rest))
    by_cases hlim : rl.limit ≤ stored.length
    · have hcheck : check_rate_limit rl stored t = (false, stored) :=
        check_rate_limit_reject rl stored t hrecent hlim
      have hW' : ∀ s u : Int, (s ∈ stored ∨ s ∈ rest) → u ∈ rest → u - s < rl.window :=
        fun s u hs hu =>
          hW s u (hs.imp id (List.mem_cons_of_mem t)) (List.mem_cons_of_mem t hu)
      obtain ⟨ih1, ih2⟩ := ih stored hW'
      have hsub : rl.limit - stored.length = 0 := Nat.sub_eq_zero_of_le hlim
      rw [runChecks_cons, hcheck]
      constructor
      · show false :: (runChecks rl stored rest).1 = _
        rw [ih1, hsub]
        simp [List.replicate_succ]
      · show (runChecks rl stored rest).2 = _
        rw [ih2, hsub]
        simp
    · have hcheck : check_rate_limit rl stored t = (true, stored ++ [t]) :=
        check_rate_limit_admit rl stored t hrecent hlim
      have hW' : ∀ s u : Int, (s ∈ stored ++ [t] ∨ s ∈ rest) → u ∈ rest → u - s < rl.window := by
        intro s u hs hu
        have hu' : u ∈ t :: rest := List.mem_cons_of_mem t hu
        rcases hs with hs | hs
        · rcases List.mem_append.mp hs with hs | hs
          · exact hW s u (Or.inl hs) hu'
          · have : s = t := List.mem_singleton.mp hs
            exact hW s u (Or.inr (this ▸ List.mem_cons_self t rest)) hu'
        · exact hW s u (Or.inr (List.mem_cons_of_mem t hs)) hu'
      obtain ⟨ih1, ih2⟩ := ih (stored ++ [t]) hW'
      have hlen : (stored ++ [t]).length = stored.length + 1 := by simp
      have hk : stored.length < rl.limit := Nat.lt_of_not_le hlim
      rw [runChecks_cons, hcheck]
      constructor
      · show true :: (runChecks rl (stored ++ [t]) rest).1 = _
        rw [ih1, hlen]
        have h1 : min (rest.length + 1) (rl.limit - stored.length)
            = min rest.length (rl.limit - (stored.length + 1)) + 1 := by omega
        have h2 : (rest.length + 1) - (rl.limit - stored.length)
            = rest.length - (rl.limit - (stored.length + 1)) := by omega
        rw [List.length_cons, h1, h2, List.replicate_succ, List.cons_append]
      · show (runChecks rl (stored ++ [t]) rest).2 = _
        rw [ih2, hlen]
        have h3 : rl.limit - stored.length = (rl.limit - (stored.length + 1)) + 1 := by omega
        rw [h3, List.take_succ_cons, List.append_assoc, List.singleton_append]

theorem filter_length_lt_of_mem {α : Type} (p : α → Bool) (a : α) :
    ∀ l : List α, a ∈ l → p a = false → (l.filter p).length < l.length := by
  intro l
  induction l with
  | nil => intro h; exact absurd h (List.not_mem_nil a)
  | cons b bs ih =>
    intro hmem hpa
    cases hpb : p b with
    | false =>
      simp only [List.filter_cons, hpb, Bool.false_eq_true, if_neg, List.length_cons]
      exact Nat.lt_succ_of_le (List.length_filter_le p bs)
    | true =>
      have hab : a ≠ b := by intro h; rw [h, hpb] at hpa; exact Bool.noConfusion hpa
      have hbs : a ∈ bs := by
        rcases List.mem_cons.mp hmem with h | h
        · exact absurd h hab
        · exact h
      simp only [List.filter_cons, hpb, if_pos, List.length_cons]
      exact Nat.succ_lt_succ (ih hbs hpa)

theorem check_rate_limit_length (rl : RateLimiter) (stored : List Int) (now : Int)
    (h : stored.length ≤ rl.limit) :
    (check_rate_limit rl stored now).2.length ≤ rl.limit := by
  rw [check_rate_limit]
  by_cases hc : rl.limit ≤ (recentOf rl stored now).length
  · rw [if_pos hc]
    exact h
  · rw [if_neg hc]
    have hrec : (recentOf rl stored now).length < rl.limit := Nat.lt_of_not_le hc
    simp only [List.length_append, List.length_cons, List.length_nil]
    omega

theorem runChecks_length_le (rl : RateLimiter) :
    ∀ (ts stored : List Int), stored.length ≤ rl.limit →
      (runChecks rl stored ts).2.length ≤ rl.limit := by
  intro ts
  induction ts with
  | nil => intro stored h; exact h
  | cons t rest ih =>
    intro stored h
    rw [runChecks_cons]
    exact ih (check_rate_limit rl stored t).2 (check_rate_limit_length rl stored t h)

/-- C1: for every token, starting with an empty window, a sequence of
`limit + 1` rate-limit checks whose timestamps all fall within one
window has exactly its last call rejected — the first `limit` calls are
admitted and the `(limit+1)`-th fails with `RateLimited`, regardless of
spacing; each admitted call appends its timestamp to the pruned window,
so the final store is the first `limit` timestamps. -/
theorem rate_limit_exactly_one_reject (rl : RateLimiter) (ts : List Int)
    (hlen : ts.length = rl.limit + 1)
    (hW : ∀ s ∈ ts, ∀ t ∈ ts, t - s < rl.window) :
    (runChecks rl [] ts).1 = List.replicate rl.limit true ++ [false]
    ∧ (runChecks rl [] ts).2 = ts.take rl.limit := by
  have hW' : ∀ s t : Int, (s ∈ ([] : List Int) ∨ s ∈ ts) → t ∈ ts → t - s < rl.window := by
    intro s t hs ht
    rcases hs with hs | hs
    · exact absurd hs (List.not_mem_nil s)
    · exact hW s hs t ht
  obtain ⟨h1, h2⟩ := runChecks_in_window rl ts [] hW'
  have e1 : min ts.length (rl.limit - ([] : List Int).length) = rl.limit := by
    simp only [List.length_nil, Nat.sub_zero, hlen]
    omega
  have e2 : ts.length - (rl.limit - ([] : List Int).length) = 1 := by
    simp only [List.length_nil, Nat.sub_zero, hlen]
    omega
  constructor
  · rw [h1, e1, e2]
    rfl
  · rw [h2]
    simp only [List.length_nil, Nat.sub_zero, List.nil_append]

theorem rate_limit_exactly_one_reject_witness :
    ([0, 1, 2] : List Int).length = (2 : Nat) + 1
    ∧ (∀ s ∈ ([0, 1, 2] : List Int), ∀ t ∈ ([0, 1, 2] : List Int), t - s < (10 : Int))
    ∧ (runChecks ⟨2, 10⟩ [] [0, 1, 2]).1 = List.replicate 2 true ++ [false]
    ∧ (runChecks ⟨2, 10⟩ [] [0, 1, 2]).2 = ([0, 1, 2] : List Int).take 2 :=
  ⟨by decide, by decide,
    (rate_limit_exactly_one_reject ⟨2, 10⟩ [0, 1, 2] (by decide) (by decide)).1,
    (rate_limit_exactly_one_reject ⟨2, 10⟩ [0, 1, 2] (by decide) (by decide)).2⟩

/-- C9: a token whose check was rejected becomes admissible again once
the window has elapsed past the earliest recorded timestamp: with the
stored list unchanged (no intervening admitted request) and at most
`limit` entries, the next check at such a later instant is admitted. -/
theorem rate_limit_reopens_after_window (rl : RateLimiter) (stored : List Int)
    (now later e : Int)
    (hblock : (check_rate_limit rl stored now).1 = false)
    (hinv : stored.length ≤ rl.limit)
    (he : e ∈ stored) (hmin : ∀ t ∈ stored, e ≤ t)
    (helapsed : rl.window ≤ later - e) :
    (check_rate_limit rl stored later).1 = true := by
  have hdrop : (decide (later - e < rl.window)) = false :=
    decide_eq_false (not_lt.mpr helapsed)
  have hlt : (recentOf rl stored later).length < stored.length :=
    filter_length_lt_of_mem _ e stored he hdrop
  have hc : ¬ rl.limit ≤ (recentOf rl stored later).length := by omega
  rw [check_rate_limit, if_neg hc]

theorem rate_limit_reopens_after_window_witness :
    (check_rate_limit ⟨1, 10⟩ [0] 5).1 = false
    ∧ (1 : Nat) ≤ (1 : Nat)
    ∧ (0 : Int) ∈ ([0] : List Int)
    ∧ (∀ t ∈ ([0] : List Int), (0 : Int) ≤ t)
    ∧ (10 : Int) ≤ 10 - 0
    ∧ (check_rate_limit ⟨1, 10⟩ [0] 10).1 = true :=
  ⟨by decide, by decide, by decide, by decide, by decide,
    rate_limit_reopens_after_window ⟨1, 10⟩ [0] 5 10 0
      (by decide) (by decide) (by decide) (by decide) (by decide)⟩

/-- C10: starting from an absent or empty entry, for every sequence of
checks with nondecreasing timestamps, the stored timestamp list for a
token never holds more than `limit` entries: after any number of calls
the stored list has length at most `limit`. -/
theorem rate_limit_store_bounded (rl : RateLimiter) (ts : List Int)
    (hmono : List.Pairwise (· ≤ ·) ts) :
    ∀ n : Nat, (runChecks rl [] (ts.take n)).2.length ≤ rl.limit := by
  intro n
  exact runChecks_length_le rl (ts.take n) [] (Nat.zero_le _)

theorem rate_limit_store_bounded_witness :
    List.Pairwise (· ≤ ·) ([0, 1, 2, 3] : List Int)
    ∧ (runChecks ⟨2, 10⟩ [] (([0, 1, 2, 3] : List Int).take 4)).2.length ≤ 2 :=
  ⟨by decide, rate_limit_store_bounded ⟨2, 10⟩ [0, 1, 2, 3] (by decide) 4⟩

/-!
## Python string primitives

`str.strip`, `str.upper`, `str.lower`, slicing and the `in` operator,
modelled over `List Char` (identical to Python on the ASCII data these
services handle).
-/

def pyStripChars (l : List Char) : List Char :=
  ((l.dropWhile Char.isWhitespace).reverse.dropWhile Char.isWhitespace).reverse

def pyStrip (s : String) : String := String.mk (pyStripChars s.toList)

def pyUpper (s : String) : String := String.mk (s.toList.map Char.toUpper)

def pyLower (s : String) : String := String.mk (s.toList.map Char.toLower)

/-- `needle` occurs at the start of `hay`. -/
def leadsWith : List Char → List Char → Bool
  | [], _ => true
  | _ :: _, [] => false
  | a :: as, b :: bs => a = b && leadsWith as bs

/-- Python's `needle in hay` for strings: substring containment,
checked at every start position. -/
def containsTok (needle : List Char) : List Char → Bool
  | [] => leadsWith needle []
  | b :: bs => leadsWith needle (b :: bs) || containsTok needle bs

def pyIn (needle hay : String) : Bool := containsTok needle.toList hay.toList

theorem leadsWith_iff (n : List Char) : ∀ h : List Char,
    leadsWith n h = true ↔ ∃ l₂, h = n ++ l₂ := by
  induction n with
  | nil =>
    intro h
    simp [leadsWith]
  | cons a as ih =>
    intro h
    cases h with
    | nil =>
      simp [leadsWith]
    | cons b bs =>
      rw [leadsWith, Bool.and_eq_true, decide_eq_true_eq, ih bs]
      constructor
      · rintro ⟨hab, l₂, hl⟩
        exact ⟨l₂, by rw [List.cons_append, hab, hl]⟩
      · rintro ⟨l₂, hl⟩
        rw [List.cons_append] at hl
        obtain ⟨h1, h2⟩ := List.cons.injEq .. ▸ hl
        exact ⟨h1.symm, l₂, h2⟩

theorem containsTok_iff (n : List Char) : ∀ h : List Char,
    containsTok n h = true ↔ ∃ l₁ l₂, h = l₁ ++ n ++ l₂ := by
  intro h
  induction h with
  | nil =>
    rw [containsTok, leadsWith_iff]
    constructor
    · rintro ⟨l₂, hl⟩
      exact ⟨[], l₂, by simpa using hl⟩
    · rintro ⟨l₁, l₂, hl⟩
      rw [List.append_assoc] at hl
      rcases List.append_eq_nil.mp hl.symm with ⟨h1, h2⟩
      exact ⟨l₂, by simp [h2]⟩
  | cons b bs ih =>
    rw [containsTok, Bool.or_eq_true, leadsWith_iff, ih]
    constructor
    · rintro (⟨l₂, hl⟩ | ⟨l₁, l₂, hl⟩)
      · exact ⟨[], l₂, by simpa using hl⟩
      · exact ⟨b :: l₁, l₂, by simp [hl]⟩
    · rintro ⟨l₁, l₂, hl⟩
      cases l₁ with
      | nil => exact Or.inl ⟨l₂, by simpa using hl⟩
      | cons c l₁ =>
        rw [List.cons_append, List.cons_append] at hl
        obtain ⟨h1, h2⟩ := List.cons.injEq .. ▸ hl
        exact Or.inr ⟨l₁, l₂, by simpa using h2⟩

theorem pyIn_iff (needle hay : String) :
    pyIn needle hay = true ↔ ∃ l₁ l₂, hay.toList = l₁ ++ needle.toList ++ l₂ :=
  containsTok_iff needle.toList hay.toList

/-!
## Intent classifier (`LLMService.detect_search_intent`,
`src/backend/services/llm_service.py` lines 41–155)

The Chat-Completion Gateway is a boundary: its outcome is the
`gatewayReply` oracle (`some content` = the returned text, `none` = any
raised exception).  `cfg` models the module configuration
(`USE_LOCAL_LLM`, presence of `OPENAI_API_KEY`); with no LLM available
the code skips the Gateway and uses the keyword fallback directly.
The local-LLM and cloud branches parse the reply identically
(`"YES" in content.strip().upper()`).
-/

structure LLMConfig where
  useLocalLLM : Bool
  hasApiKey : Bool

def simple_keywords : List String :=
  ["cari", "dimana", "tempat", "restoran", "kafe", "hotel", "toko", "mall"]

/-- The deterministic keyword fallback of `detect_search_intent`
(lines 53–56 and 151–155): any keyword occurring as a substring of the
lower-cased message. -/
def keyword_fallback (message : String) : Bool :=
  simple_keywords.any (fun k => pyIn k (pyLower message))

/-- Embedding of `LLMService.detect_search_intent`. -/
def detect_search_intent (cfg : LLMConfig) (gatewayReply : Option String)
    (message : String) : Bool :=
  if !cfg.useLocalLLM && !cfg.hasApiKey then
    keyword_fallback message
  else
    match gatewayReply with
    | some content => pyIn "YES" (pyUpper (pyStrip content))
    | none => keyword_fallback message

/-- Declarative containment, written from the spec's vocabulary. -/
def SpecContains (needle hay : List Char) : Prop := ∃ l₁ l₂, hay = l₁ ++ needle ++ l₂

/-- The spec's keyword fallback, declaratively: some keyword of the
fixed set occurs as a substring of the lower-cased message. -/
def SpecKeywordMatch (message : String) : Prop :=
  ∃ k ∈ simple_keywords, SpecContains k.toList (pyLower message).toList

/-- The classifier decision as the spec describes it, amended at one
point: the reply maps to `NewSearch` iff its trimmed, case-folded text
CONTAINS the affirmative token (the spec said "starts with"); Gateway
failure, or no available LLM, maps to the keyword fallback. -/
def SpecNewSearchDecision (cfg : LLMConfig) (reply : Option String)
    (message : String) : Prop :=
  if !cfg.useLocalLLM && !cfg.hasApiKey then
    SpecKeywordMatch message
  else
    match reply with
    | some s => SpecContains "YES".toList (pyUpper (pyStrip s)).toList
    | none => SpecKeywordMatch message

theorem keyword_fallback_iff (message : String) :
    keyword_fallback message = true ↔ SpecKeywordMatch message := by
  rw [keyword_fallback, List.any_eq_true]
  constructor
  · rintro ⟨k, hk, hin⟩
    exact ⟨k, hk, (pyIn_iff k (pyLower message)).mp hin⟩
  · rintro ⟨k, hk, hin⟩
    exact ⟨k, hk, (pyIn_iff k (pyLower message)).mpr hin⟩

/-- C2 (amended): the classifier's decision is `NewSearch` iff the
Gateway reply, trimmed and case-folded, contains the affirmative token
`YES` as a substring — not only as a leading token — and on Gateway
failure (or with no LLM configured) the decision is exactly the
deterministic keyword fallback over the lower-cased message. -/
theorem detect_search_intent_spec (cfg : LLMConfig) (reply : Option String)
    (message : String) :
    detect_search_intent cfg reply message = true
      ↔ SpecNewSearchDecision cfg reply message := by
  rw [detect_search_intent.eq_def, SpecNewSearchDecision.eq_def]
  by_cases hc : (!cfg.useLocalLLM && !cfg.hasApiKey) = true
  · rw [if_pos hc, if_pos hc]
    exact keyword_fallback_iff message
  · rw [if_neg hc, if_neg hc]
    cases reply with
    | some s => exact pyIn_iff "YES" (pyUpper (pyStrip s))
    | none => exact keyword_fallback_iff message

/-- C2 counterexample: on the Gateway reply `" NO, ALTHOUGH YES"` the
trimmed, case-folded text does not start with the affirmative token and
the message `"halo"` matches no fallback keyword, yet the classifier
answers `NewSearch`: the code tests substring containment of `"YES"`,
not a leading token, so the claim's parsing rule is false. -/
theorem detect_search_intent_counterexample :
    detect_search_intent ⟨false, true⟩ (some " NO, ALTHOUGH YES") "halo" = true
    ∧ leadsWith "YES".toList (pyUpper (pyStrip " NO, ALTHOUGH YES")).toList = false
    ∧ keyword_fallback "halo" = false :=
  ⟨by decide, by decide, by decide⟩

/-!
## Search parameter extractor (`LLMService.extract_search_request`,
`src/backend/services/llm_service.py` lines 315–475)

The query repair policy (lines 433–439) runs after the Gateway reply is
parsed; the message sent to the Gateway is the original message with an
optional location-context suffix (lines 366–368), and that suffixed
text — not the bare original message — feeds the fallback.
-/

/-- The user content sent to the Gateway (lines 366–368): the suffix is
appended under Python truthiness (`if chat_request.location_context:`),
so an absent or empty context adds nothing. -/
def gateway_user_message (message : String) (location_context : Option String) : String :=
  match location_context with
  | some c => if c = "" then message else message ++ " (Current location context: " ++ c ++ ")"
  | none => message

/-- Embedding of the extractor's query repair: parsed `query` absent or
empty (Python falsy) is replaced by the first 50 characters of the
stripped Gateway user content, or the literal `"places"` if that is
empty. -/
def extracted_query (message : String) (location_context : Option String)
    (parsedQuery : Option String) : String :=
  if parsedQuery.getD "" = "" then
    if String.mk ((pyStrip (gateway_user_message message location_context)).toList.take 50) = ""
    then "places"
    else String.mk ((pyStrip (gateway_user_message message location_context)).toList.take 50)
  else parsedQuery.getD ""

/-- C6 counterexample: with the whitespace-only original message
`"  "` and a location context present, the parsed query being absent
yields the suffixed Gateway content as query, not `"places"`, although
the trimmed original message is empty. -/
theorem extracted_query_counterexample :
    extracted_query "  " (some "Jakarta") none
      = "(Current location context: Jakarta)"
    ∧ extracted_query "  " (some "Jakarta") none ≠ "places"
    ∧ pyStrip "  " = "" :=
  ⟨by decide, by decide, by decide⟩

/-- C6 (amended): when the parsed query is absent or empty, the
resulting query is the first 50 characters of the trimmed Gateway user
content — the original message suffixed with the location-context hint
when a non-empty one is present — or the literal `"places"` when that
trimmed content is empty; the result is never the empty string and the
fallback never exceeds 50 characters. -/
theorem extracted_query_fallback (message : String) (location_context : Option String)
    (parsedQuery : Option String)
    (h : parsedQuery = none ∨ parsedQuery = some "") :
    (pyStrip (gateway_user_message message location_context) = "" →
        extracted_query message location_context parsedQuery = "places")
    ∧ (pyStrip (gateway_user_message message location_context) ≠ "" →
        (extracted_query message location_context parsedQuery).toList
            = (pyStrip (gateway_user_message message location_context)).toList.take 50
          ∧ extracted_query message location_context parsedQuery ≠ ""
          ∧ (extracted_query message location_context parsedQuery).toList.length ≤ 50) := by
  have hq : parsedQuery.getD "" = "" := by
    rcases h with h | h <;> rw [h] <;> rfl
  have hmain : extracted_query message location_context parsedQuery
      = if String.mk ((pyStrip (gateway_user_message message location_context)).toList.take 50) = ""
        then "places"
        else String.mk ((pyStrip (gateway_user_message message location_context)).toList.take 50) := by
    rw [extracted_query, hq]
    exact if_pos rfl
  constructor
  · intro hempty
    rw [hmain, hempty]
    exact if_pos rfl
  · intro hne
    have hlist : (pyStrip (gateway_user_message message location_context)).toList ≠ [] := by
      intro hl
      exact hne (String.ext hl)
    have htake : (pyStrip (gateway_user_message message location_context)).toList.take 50 ≠ [] := by
      intro ht
      have hlen := congrArg List.length ht
      rw [List.length_take, List.length_nil] at hlen
      have hlen0 : (pyStrip (gateway_user_message message location_context)).toList.length = 0 := by
        omega
      exact hlist (List.length_eq_zero.mp hlen0)
    have hfb : String.mk ((pyStrip (gateway_user_message message location_context)).toList.take 50) ≠ "" := by
      intro hfb
      exact htake (congrArg String.toList hfb)
    rw [hmain, if_neg hfb]
    refine ⟨rfl, hfb, ?_⟩
    show ((pyStrip (gateway_user_message message location_context)).toList.take 50).length ≤ 50
    rw [List.length_take]
    omega

theorem extracted_query_fallback_witness :
    ((none : Option String) = none ∨ (none : Option String) = some "")
    ∧ extracted_query "  " none none = "places"
    ∧ extracted_query "  " (some "") none = "places" :=
  ⟨Or.inl rfl,
    (extracted_query_fallback "  " none none (Or.inl rfl)).1 (by decide),
    (extracted_query_fallback "  " (some "") none (Or.inl rfl)).1 (by decide)⟩

/-!
## Conversational-mode synthesis (`LLMService.generate_regular_chat_response`,
`src/backend/services/llm_service.py` lines 157–220)

A Python return is `ok`, a raised exception reaching the caller is
`raise`.  The chat history only shapes the Gateway payload, never the
outcome, so it is carried as an inert argument.
-/

inductive PyOutcome where
  | ok : String → PyOutcome
  | raise : String → PyOutcome
deriving DecidableEq

def chat_fallback_message : String :=
  "Maaf, saya mengalami kesulitan dalam merespons. Silakan coba lagi."

def missing_key_error : String :=
  "OPENAI_API_KEY environment variable is required when using cloud LLM"

/-- Embedding of `generate_regular_chat_response`: raises `ValueError`
when neither the local LLM nor an API key is configured; otherwise
returns the Gateway text, or the deterministic apology on any Gateway
exception. -/
def generate_regular_chat_response (cfg : LLMConfig) (gatewayReply : Option String)
    (message : String) (chat_history : List (String × String)) : PyOutcome :=
  if !cfg.useLocalLLM && !cfg.hasApiKey then
    PyOutcome.raise missing_key_error
  else
    match gatewayReply with
    | some content => PyOutcome.ok content
    | none => PyOutcome.ok chat_fallback_message

/-- C7 counterexample: with the cloud LLM selected (the module constant
`USE_LOCAL_LLM = False`) and no `OPENAI_API_KEY` configured,
conversational synthesis raises `ValueError` to its caller instead of
returning a fallback string, so the claim's "never raises" is false. -/
theorem regular_chat_raises_counterexample :
    generate_regular_chat_response ⟨false, false⟩ none "halo" []
      = PyOutcome.raise missing_key_error := by decide

/-- C7 (amended): whenever an LLM backend is configured (local LLM
enabled or API key present), conversational synthesis never raises: it
returns the Gateway text on success and, on any Gateway failure, the
deterministic non-empty apology string.  With no backend configured the
code raises `ValueError` before any Gateway call. -/
theorem regular_chat_no_raise (cfg : LLMConfig) (reply : Option String)
    (message : String) (history : List (String × String))
    (h : cfg.useLocalLLM = true ∨ cfg.hasApiKey = true) :
    (∃ s, generate_regular_chat_response cfg reply message history = PyOutcome.ok s)
    ∧ (reply = none →
        generate_regular_chat_response cfg reply message history
          = PyOutcome.ok chat_fallback_message
        ∧ chat_fallback_message ≠ "") := by
  have hc : (!cfg.useLocalLLM && !cfg.hasApiKey) = false := by
    rcases h with h | h <;> simp [h]
  rw [generate_regular_chat_response.eq_def]
  simp only [hc, Bool.false_eq_true, if_false]
  cases reply with
  | some s => exact ⟨⟨s, rfl⟩, fun hn => Option.noConfusion hn⟩
  | none => exact ⟨⟨chat_fallback_message, rfl⟩, fun _ => ⟨rfl, by decide⟩⟩

theorem regular_chat_no_raise_witness :
    generate_regular_chat_response ⟨false, true⟩ none "halo" []
      = PyOutcome.ok chat_fallback_message
    ∧ chat_fallback_message ≠ "" :=
  (regular_chat_no_raise ⟨false, true⟩ none "halo" [] (Or.inr rfl)).2 rfl

/-!
## Place search (`src/backend/services/places_service.py`)

Ratings are decimal numbers; they are modelled as rationals (only
ordering and comparison against `min_rating` matter).  A raw provider
result is a JSON object read with `.get`, so every field is optional.
Python's f-string prints the value `None` as the text `None`.
-/

def pyFmt : Option String → String
  | none => "None"
  | some s => s

/-- Python truthiness of an optional string (`None` and `""` are falsy). -/
def pyTruthyStr : Option String → Bool
  | none => false
  | some s => decide (s ≠ "")

structure LocationBias where
  lat : ℚ
  lng : ℚ
  radius_m : Nat
deriving DecidableEq

structure SearchRequest where
  query : String
  limit : Nat
  min_rating : Option ℚ
  open_now : Option Bool
  location_name : Option String
  sort_by : Option String
  place_types : Option (List String)
  cuisine : Option (List String)
  location_bias : Option LocationBias
deriving DecidableEq

structure RawPlace where
  id : Option String
  displayName : Option String
  formattedAddress : Option String
  rating : Option ℚ
  userRatingCount : Option Nat
  priceLevel : Option String
  lat : Option ℚ
  lng : Option ℚ
  openNow : Option Bool
deriving DecidableEq

structure ProcessedResult where
  name : Option String
  place_id : Option String
  address : Option String
  rating : Option ℚ
  user_ratings_total : Option Nat
  price_level : Option String
  lat : Option ℚ
  lng : Option ℚ
  open_now : Option Bool
  embed_iframe_url : String
  directions_url : String
deriving DecidableEq

/-- The minimum-rating filter inside `_process_new_api_results`
(line 128): skip a place iff `min_rating` is truthy (present and
nonzero) and `(rating or 0) < min_rating`. -/
def keepPlace (minR : Option ℚ) (rating : Option ℚ) : Bool :=
  match minR with
  | none => true
  | some m => !(decide (m ≠ 0) && decide (rating.getD 0 < m))

/-- Normalization of one raw result (lines 121–147).  The derived URLs
interpolate the raw `place_id` value with Python f-strings, so a
missing id appears as the literal text `None` inside the URL. -/
def toProcessed (embedKey : Option String) (p : RawPlace) : ProcessedResult :=
  ⟨p.displayName, p.id, p.formattedAddress, p.rating, p.userRatingCount, p.priceLevel,
   p.lat, p.lng, p.openNow,
   "https://www.google.com/maps/embed/v1/place?q=place_id:" ++ pyFmt p.id
     ++ "&key=" ++ pyFmt embedKey,
   "https://www.google.com/maps/dir/?api=1&destination=place_id:" ++ pyFmt p.id
     ++ "&destination_place_id=" ++ pyFmt p.id⟩

/-- The sort key of line 152: `((rating or 0), (user_ratings_total or 0))`
compared lexicographically. -/
def resultKey (x : ProcessedResult) : Lex (ℚ × ℕ) :=
  toLex (x.rating.getD 0, x.user_ratings_total.getD 0)

/-- Insert into a descending-sorted list, before the first element whose
key is `≤` the inserted key (so an equal-keyed element already present
stays in front only if it has a strictly greater key — equal keys from
later positions land after earlier ones). -/
def insertDescBy {α K : Type} [LinearOrder K] (k : α → K) (a : α) : List α → List α
  | [] => [a]
  | b :: bs => if k b ≤ k a then a :: b :: bs else b :: insertDescBy k a bs

/-- Stable descending insertion sort by key: the unique stable sort for
this comparison, hence the embedding of Python's stable
`list.sort(key=..., reverse=True)`. -/
def sortDescBy {α K : Type} [LinearOrder K] (k : α → K) : List α → List α
  | [] => []
  | x :: xs => insertDescBy k x (sortDescBy k xs)

/-- Embedding of `PlacesService._process_new_api_results`
(lines 107–156): rating filter, normalization, then — unless
`sort_by == "distance"` — the stable descending sort. -/
def process_new_api_results (embedKey : Option String) (raw : List RawPlace)
    (req : SearchRequest) : List ProcessedResult :=
  if req.sort_by ≠ some "distance" then
    sortDescBy resultKey
      ((raw.filter (fun p => keepPlace req.min_rating p.rating)).map (toProcessed embedKey))
  else
    (raw.filter (fun p => keepPlace req.min_rating p.rating)).map (toProcessed embedKey)

theorem insertDescBy_perm {α K : Type} [LinearOrder K] (k : α → K) (a : α) :
    ∀ l : List α, (insertDescBy k a l).Perm (a :: l) := by
  intro l
  induction l with
  | nil => exact List.Perm.refl _
  | cons b bs ih =>
    rw [insertDescBy]
    by_cases h : k b ≤ k a
    · rw [if_pos h]
    · rw [if_neg h]
      exact (ih.cons b).trans (List.Perm.swap a b bs)

theorem sortDescBy_perm {α K : Type} [LinearOrder K] (k : α → K) :
    ∀ l : List α, (sortDescBy k l).Perm l := by
  intro l
  induction l with
  | nil => exact List.Perm.refl _
  | cons x xs ih =>
    rw [sortDescBy]
    exact (insertDescBy_perm k x (sortDescBy k xs)).trans (ih.cons x)

theorem insertDescBy_pairwise {α K : Type} [LinearOrder K] (k : α → K) (a : α) :
    ∀ l : List α, l.Pairwise (fun x y => k y ≤ k x) →
      (insertDescBy k a l).Pairwise (fun x y => k y ≤ k x) := by
  intro l
  induction l with
  | nil =>
    intro _
    simp [insertDescBy]
  | cons b bs ih =>
    intro h
    rcases List.pairwise_cons.mp h with ⟨hb, hbs⟩
    rw [insertDescBy]
    by_cases hba : k b ≤ k a
    · rw [if_pos hba]
      refine List.pairwise_cons.mpr ⟨?_, h⟩
      intro y hy
      rcases List.mem_cons.mp hy with rfl | hy
      · exact hba
      · exact le_trans (hb y hy) hba
    · rw [if_neg hba]
      refine List.pairwise_cons.mpr ⟨?_, ih hbs⟩
      intro y hy
      have hy' := (insertDescBy_perm k a bs).mem_iff.mp hy
      rcases List.mem_cons.mp hy' with rfl | hy''
      · exact le_of_not_le hba
      · exact hb y hy''

theorem sortDescBy_pairwise {α K : Type} [LinearOrder K] (k : α → K) :
    ∀ l : List α, (sortDescBy k l).Pairwise (fun x y => k y ≤ k x) := by
  intro l
  induction l with
  | nil => exact List.Pairwise.nil
  | cons x xs ih =>
    rw [sortDescBy]
    exact insertDescBy_pairwise k x (sortDescBy k xs) ih

theorem insertDescBy_filter_key {α K : Type} [LinearOrder K] (k : α → K) (a : α) (c : K) :
    ∀ l : List α,
      (insertDescBy k a l).filter (fun x => k x = c)
        = if k a = c then a :: l.filter (fun x => k x = c)
          else l.filter (fun x => k x = c) := by
  intro l
  induction l with
  | nil =>
    by_cases hc : k a = c
    · simp [insertDescBy, hc]
    · simp [insertDescBy, hc]
  | cons b bs ih =>
    rw [insertDescBy]
    by_cases hba : k b ≤ k a
    · rw [if_pos hba]
      by_cases hc : k a = c
      · simp [List.filter_cons, hc]
      · simp [List.filter_cons, hc]
    · rw [if_neg hba]
      have hab : k a < k b := lt_of_not_le hba
      by_cases hc : k a = c
      · have hbc : ¬ (k b = c) := fun hbc => ne_of_gt hab (hbc.trans hc.symm)
        simp [List.filter_cons, hbc, hc, ih]
      · by_cases hbc : k b = c
        · simp [List.filter_cons, hbc, hc, ih]
        · simp [List.filter_cons, hbc, hc, ih]

theorem sortDescBy_filter_key {α K : Type} [LinearOrder K] (k : α → K) (c : K) :
    ∀ l : List α,
      (sortDescBy k l).filter (fun x => k x = c) = l.filter (fun x => k x = c) := by
  intro l
  induction l with
  | nil => rfl
  | cons x xs ih =>
    rw [sortDescBy, insertDescBy_filter_key, List.filter_cons]
    by_cases hc : k x = c
    · rw [if_pos hc, ih]
      simp [hc]
    · rw [if_neg hc, ih]
      simp [hc]

/-- C5: when `sort_by` is not `"distance"`, the processed results are
the stable descending sort of the normalized (filtered and mapped)
provider results by the key `(rating or 0, rating_count or 0)`: a
permutation of the normalized list, sorted so every later element's key
is `≤` every earlier one's, and — stability — the elements of any fixed
key keep their original provider order. -/
theorem process_results_sorted (embedKey : Option String) (raw : List RawPlace)
    (req : SearchRequest) (hsort : req.sort_by ≠ some "distance") :
    process_new_api_results embedKey raw req
        = sortDescBy resultKey
            ((raw.filter (fun p => keepPlace req.min_rating p.rating)).map (toProcessed embedKey))
    ∧ (process_new_api_results embedKey raw req).Perm
        ((raw.filter (fun p => keepPlace req.min_rating p.rating)).map (toProcessed embedKey))
    ∧ (process_new_api_results embedKey raw req).Pairwise
        (fun x y => resultKey y ≤ resultKey x)
    ∧ ∀ c : Lex (ℚ × ℕ),
        (process_new_api_results embedKey raw req).filter (fun x => resultKey x = c)
          = ((raw.filter (fun p => keepPlace req.min_rating p.rating)).map
              (toProcessed embedKey)).filter (fun x => resultKey x = c) := by
  have hproc : process_new_api_results embedKey raw req
      = sortDescBy resultKey
          ((raw.filter (fun p => keepPlace req.min_rating p.rating)).map (toProcessed embedKey)) := by
    rw [process_new_api_results, if_pos hsort]
  refine ⟨hproc, ?_, ?_, ?_⟩
  · rw [hproc]
    exact sortDescBy_perm resultKey _
  · rw [hproc]
    exact sortDescBy_pairwise resultKey _
  · intro c
    rw [hproc]
    exact sortDescBy_filter_key resultKey c _

/-- Provider result with rating 4 and 10 ratings. -/
def sampleRawA : RawPlace := ⟨some "pA", some "A", none, some 4, some 10, none, none, none, none⟩

/-- Provider result with rating 4 and 50 ratings. -/
def sampleRawB : RawPlace := ⟨some "pB", some "B", none, some 4, some 50, none, none, none, none⟩

/-- Provider result with rating 5 and 1 rating. -/
def sampleRawC : RawPlace := ⟨some "pC", some "C", none, some 5, some 1, none, none, none, none⟩

/-- A default-mode search request (no filters, `sort_by` unset). -/
def sampleReq : SearchRequest := ⟨"restaurant", 5, none, none, none, none, none, none, none⟩

theorem process_results_sorted_witness :
    sampleReq.sort_by ≠ some "distance"
    ∧ process_new_api_results none [sampleRawA, sampleRawB, sampleRawC] sampleReq
        = [toProcessed none sampleRawC, toProcessed none sampleRawB, toProcessed none sampleRawA]
    ∧ (process_new_api_results none [sampleRawA, sampleRawB, sampleRawC] sampleReq).Pairwise
        (fun x y => resultKey y ≤ resultKey x) :=
  ⟨by decide, by decide,
    (process_results_sorted none [sampleRawA, sampleRawB, sampleRawC] sampleReq
      (by decide)).2.2.1⟩

/-!
## Map service normalization (`src/backend/services/maps_service.py`,
lines 34–71)

This second normalizer converts Google's textual price level to an
integer and guards the derived URLs with `if place_id else None`, so a
missing (or empty) id yields `None` — null — URLs.
-/

structure MapProcessed where
  name : Option String
  place_id : Option String
  address : Option String
  rating : Option ℚ
  user_ratings_total : Option Nat
  price_level : Option Nat
  lat : Option ℚ
  lng : Option ℚ
  open_now : Option Bool
  embed_iframe_url : Option String
  directions_url : Option String
deriving DecidableEq

/-- The `price_mapping` dict lookup of lines 42–48 (`dict.get` gives
`None` for an absent or unmapped key). -/
def price_mapping : Option String → Option Nat
  | some "PRICE_LEVEL_INEXPENSIVE" => some 1
  | some "PRICE_LEVEL_MODERATE" => some 2
  | some "PRICE_LEVEL_EXPENSIVE" => some 3
  | some "PRICE_LEVEL_VERY_EXPENSIVE" => some 4
  | _ => none

/-- Normalization of one raw result in `MapService.search_places`
(lines 35–71). -/
def map_service_normalize (embedKey : Option String) (p : RawPlace) : MapProcessed :=
  ⟨p.displayName, p.id, p.formattedAddress, p.rating, p.userRatingCount,
   price_mapping p.priceLevel, p.lat, p.lng, p.openNow,
   (if pyTruthyStr p.id then
      some ("https://www.google.com/maps/embed/v1/place?q=place_id:" ++ pyFmt p.id
        ++ "&key=" ++ pyFmt embedKey)
    else none),
   (if pyTruthyStr p.id then
      some ("https://www.google.com/maps/dir/?api=1&destination=place_id:" ++ pyFmt p.id
        ++ "&destination_place_id=" ++ pyFmt p.id)
    else none)⟩

/-- Raw provider result lacking a `place_id`. -/
def noIdRaw : RawPlace := ⟨none, some "Mystery", none, some 4, some 10, none, none, none, none⟩

/-- C8 counterexample: a raw result without `place_id` is included in
the processed output, but neither normalizer sets its derived URLs to
the string `"not available"`: `_process_new_api_results` interpolates
the Python literal `None` into the URL text and `MapService` sets the
URLs to null. -/
theorem missing_place_id_counterexample :
    (process_new_api_results none [noIdRaw] sampleReq).length = 1
    ∧ (toProcessed none noIdRaw).embed_iframe_url
        = "https://www.google.com/maps/embed/v1/place?q=place_id:None&key=None"
    ∧ (toProcessed none noIdRaw).embed_iframe_url ≠ "not available"
    ∧ (toProcessed none noIdRaw).directions_url ≠ "not available"
    ∧ (map_service_normalize none noIdRaw).embed_iframe_url = none
    ∧ (map_service_normalize none noIdRaw).directions_url = none :=
  ⟨by decide, by decide, by decide, by decide, by decide, by decide⟩

/-- C8 (amended): a raw result lacking a `place_id` that passes the
rating filter is still included in the processed output; its derived
URLs are not the string `"not available"`: `_process_new_api_results`
yields URL text embedding the literal `None`, and `MapService`
normalization yields null URLs. -/
theorem missing_place_id_included (embedKey : Option String) (raw : List RawPlace)
    (req : SearchRequest) (p : RawPlace) (hp : p ∈ raw)
    (hkeep : keepPlace req.min_rating p.rating = true)
    (hid : p.id = none) :
    toProcessed embedKey p ∈ process_new_api_results embedKey raw req
    ∧ (toProcessed embedKey p).embed_iframe_url
        = "https://www.google.com/maps/embed/v1/place?q=place_id:None&key=" ++ pyFmt embedKey
    ∧ (toProcessed embedKey p).directions_url
        = "https://www.google.com/maps/dir/?api=1&destination=place_id:None&destination_place_id=None"
    ∧ (map_service_normalize embedKey p).embed_iframe_url = none
    ∧ (map_service_normalize embedKey p).directions_url = none := by
  have hbase : toProcessed embedKey p
      ∈ (raw.filter (fun q => keepPlace req.min_rating q.rating)).map (toProcessed embedKey) :=
    List.mem_map_of_mem (toProcessed embedKey) (List.mem_filter.mpr ⟨hp, hkeep⟩)
  refine ⟨?_, ?_, ?_, ?_, ?_⟩
  · rw [process_new_api_results]
    by_cases hs : req.sort_by ≠ some "distance"
    · rw [if_pos hs]
      exact ((sortDescBy_perm resultKey _).mem_iff).mpr hbase
    · rw [if_neg hs]
      exact hbase
  · rw [toProcessed, hid]
    rfl
  · rw [toProcessed, hid]
    rfl
  · rw [map_service_normalize, hid]
    rfl
  · rw [map_service_normalize, hid]
    rfl

theorem missing_place_id_included_witness :
    toProcessed none noIdRaw ∈ process_new_api_results none [noIdRaw] sampleReq
    ∧ (toProcessed none noIdRaw).embed_iframe_url
        = "https://www.google.com/maps/embed/v1/place?q=place_id:None&key=" ++ pyFmt none
    ∧ (toProcessed none noIdRaw).directions_url
        = "https://www.google.com/maps/dir/?api=1&destination=place_id:None&destination_place_id=None"
    ∧ (map_service_normalize none noIdRaw).embed_iframe_url = none
    ∧ (map_service_normalize none noIdRaw).directions_url = none :=
  missing_place_id_included none [noIdRaw] sampleReq noIdRaw
    (List.mem_singleton.mpr rfl) (by decide) rfl

/-!
## Geocoding policy of the orchestrator (`src/backend/main.py`
lines 34–40 and 84–95, with `PlacesService.search_places` lines 59–79)

Both the `/v1/places/search` endpoint and the search branch of
`chat_and_search` geocode only when `location_name` is truthy and
`location_bias` is absent, and `search_places` builds the provider
body's `locationBias` circle from the explicit bias verbatim, else from
the geocoded coordinates with a fixed 8000 m radius, else omits it.
The Location Resolver is an oracle `geocoder`; the boolean records
whether it was invoked.
-/

structure GeoCoord where
  lat : ℚ
  lng : ℚ
deriving DecidableEq

structure BiasCircle where
  centerLat : ℚ
  centerLng : ℚ
  radius : Nat
deriving DecidableEq

/-- The `locationBias` member of the provider request body
(`PlacesService.search_places` lines 59–79). -/
def build_location_bias (req : SearchRequest) (geocoded : Option GeoCoord) : Option BiasCircle :=
  match req.location_bias with
  | some b => some ⟨b.lat, b.lng, b.radius_m⟩
  | none =>
    match geocoded with
    | some g => some ⟨g.lat, g.lng, 8000⟩
    | none => none

/-- The orchestrator's geocoding guard:
`if search_request.location_name and not search_request.location_bias`. -/
def should_geocode (req : SearchRequest) : Bool :=
  pyTruthyStr req.location_name && req.location_bias.isNone

/-- The orchestrator's search preparation: optionally geocode, then
build the provider query's bias; returns (geocoder invoked?, bias sent
to the provider). -/
def run_search_orchestration (req : SearchRequest) (geocoder : String → Option GeoCoord) :
    Bool × Option BiasCircle :=
  (should_geocode req,
   build_location_bias req
     (if should_geocode req then geocoder (pyFmt req.location_name) else none))

/-- C4: the Location Resolver is invoked exactly when `location_name`
is set (truthy) and `location_bias` is absent; and whenever
`location_bias` is present, no geocoding call is made — even if
`location_name` is also set — and the provider query carries the bias
verbatim (`lat`, `lng`, `radius_m` unchanged), for every geocoder. -/
theorem location_bias_verbatim (req : SearchRequest) (geocoder : String → Option GeoCoord) :
    ((run_search_orchestration req geocoder).1 = true
        ↔ pyTruthyStr req.location_name = true ∧ req.location_bias = none)
    ∧ (∀ b : LocationBias, req.location_bias = some b →
        (run_search_orchestration req geocoder).1 = false
        ∧ (run_search_orchestration req geocoder).2 = some ⟨b.lat, b.lng, b.radius_m⟩) := by
  constructor
  · show should_geocode req = true ↔ _
    rw [should_geocode, Bool.and_eq_true, Option.isNone_iff_eq_none]
  · intro b hb
    constructor
    · show should_geocode req = false
      rw [should_geocode, hb]
      simp [Option.isNone]
    · show build_location_bias req _ = _
      rw [build_location_bias.eq_def, hb]

/-- A search request carrying an explicit location bias and a location
name at the same time. -/
def biasedReq : SearchRequest :=
  ⟨"cafe", 5, none, none, some "Jakarta", none, none, none, some ⟨-6, 106, 500⟩⟩

theorem location_bias_verbatim_witness :
    (run_search_orchestration biasedReq (fun _ => some ⟨0, 0⟩)).1 = false
    ∧ (run_search_orchestration biasedReq (fun _ => some ⟨0, 0⟩)).2 = some ⟨-6, 106, 500⟩ :=
  (location_bias_verbatim biasedReq (fun _ => some ⟨0, 0⟩)).2 ⟨-6, 106, 500⟩ rfl

/-!
## Follow-up mode and the Last-Search Cache

Modelled from the spec: the Last-Search Cache and the follow-up branch
of the pipeline (spec §4.6, *Follow-up mode*, and §3, *Last-Search
Cache*) are not implemented anywhere under `src/backend` — the
backend's conversational branch always calls the Gateway — so this part
of the repository lives outside `src/`.  Following the spec's words:
when the "refers to previous results" check returns true and a
Last-Search Cache entry exists, the pipeline skips search entirely and
synthesizes a deterministic answer naming the cached result with the
highest `(rating, rating_count)` tuple, with no Place Search Gateway
call.
-/

structure CachedPlace where
  name : String
  rating : Option ℚ
  rating_count : Option Nat
deriving DecidableEq

/-- Modelled from the spec: the `(rating, rating_count)` tuple of a
cached Place Result, compared lexicographically (absent values read as
0, as in the ranking policy of §4.5). -/
def cachedKey (p : CachedPlace) : Lex (ℚ × ℕ) :=
  toLex (p.rating.getD 0, p.rating_count.getD 0)

/-- Modelled from the spec: the cached result with the highest
`(rating, rating_count)` tuple (first one on ties). -/
def bestCached (cache : List CachedPlace) : Option CachedPlace :=
  cache.foldl
    (fun acc p =>
      match acc with
      | none => some p
      | some q => if cachedKey q < cachedKey p then some p else some q)
    none

/-- Modelled from the spec: the follow-up branch of the pipeline.  The
returned pair is the deterministic answer (the name of the best cached
place) together with whether the Place Search Gateway was invoked for
this branch. -/
def follow_up_branch (refersToPrevious : Bool) (cache : List CachedPlace) :
    Option (String × Bool) :=
  if refersToPrevious && !cache.isEmpty then
    match bestCached cache with
    | some p => some (p.name, false)
    | none => none
  else none

theorem bestCached_fold_spec :
    ∀ (cache : List CachedPlace) (q : CachedPlace),
      ∃ p, List.foldl
            (fun acc r =>
              match acc with
              | none => some r
              | some s => if cachedKey s < cachedKey r then some r else some s)
            (some q) cache = some p
        ∧ (p = q ∨ p ∈ cache)
        ∧ cachedKey q ≤ cachedKey p
        ∧ ∀ r ∈ cache, cachedKey r ≤ cachedKey p := by
  intro cache
  induction cache with
  | nil =>
    intro q
    refine ⟨q, rfl, Or.inl rfl, le_refl _, ?_⟩
    intro r hr
    exact absurd hr (List.not_mem_nil r)
  | cons r rs ih =>
    intro q
    show ∃ p,
      List.foldl
            (fun acc x =>
              match acc with
              | none => some x
              | some s => if cachedKey s < cachedKey x then some x else some s)
            (if cachedKey q < cachedKey r then some r else some q) rs = some p
        ∧ (p = q ∨ p ∈ r :: rs)
        ∧ cachedKey q ≤ cachedKey p
        ∧ ∀ x ∈ r :: rs, cachedKey x ≤ cachedKey p
    by_cases hlt : cachedKey q < cachedKey r
    · obtain ⟨p, hfold, hmem, hle, hall⟩ := ih r
      rw [if_pos hlt]
      refine ⟨p, hfold, ?_, le_of_lt (lt_of_lt_of_le hlt hle), ?_⟩
      · rcases hmem with rfl | hmem
        · exact Or.inr (List.mem_cons_self _ _)
        · exact Or.inr (List.mem_cons_of_mem r hmem)
      · intro x hx
        rcases List.mem_cons.mp hx with rfl | hx
        · exact hle
        · exact hall x hx
    · obtain ⟨p, hfold, hmem, hle, hall⟩ := ih q
      rw [if_neg hlt]
      refine ⟨p, hfold, ?_, hle, ?_⟩
      · rcases hmem with rfl | hmem
        · exact Or.inl rfl
        · exact Or.inr (List.mem_cons_of_mem r hmem)
      · intro x hx
        rcases List.mem_cons.mp hx with rfl | hx
        · exact le_trans (le_of_not_lt hlt) hle
        · exact hall x hx

/-- C3 (spec-modelled): when the refers-to-previous check is true and
the Last-Search Cache is non-empty, the follow-up branch answers with
the name of the cached place whose `(rating, rating_count)` tuple is
highest — a member of the cache dominating every cached entry — and the
Place Search Gateway is not invoked (the `false` component). -/
theorem follow_up_uses_cache (cache : List CachedPlace) (p : CachedPlace)
    (hbest : bestCached cache = some p) :
    p ∈ cache ∧ (∀ q ∈ cache, cachedKey q ≤ cachedKey p)
    ∧ follow_up_branch true cache = some (p.name, false) := by
  cases cache with
  | nil =>
    rw [bestCached] at hbest
    exact Option.noConfusion hbest
  | cons r rs =>
    have hfold : bestCached (r :: rs)
        = List.foldl
            (fun acc x =>
              match acc with
              | none => some x
              | some s => if cachedKey s < cachedKey x then some x else some s)
            (some r) rs := by
      rw [bestCached, List.foldl_cons]
    obtain ⟨p', hfold', hmem, hle, hall⟩ := bestCached_fold_spec rs r
    have hp' : p' = p := by
      have hh := hbest
      rw [hfold, hfold'] at hh
      exact Option.some.inj hh
    subst hp'
    refine ⟨?_, ?_, ?_⟩
    · rcases hmem with rfl | hmem
      · exact List.mem_cons_self _ _
      · exact List.mem_cons_of_mem r hmem
    · intro q hq
      rcases List.mem_cons.mp hq with rfl | hq
      · exact hle
      · exact hall q hq
    · rw [follow_up_branch, if_pos (by simp), hbest]

theorem follow_up_uses_cache_witness :
    follow_up_branch true
        [⟨"Alpha", some 4, some 10⟩, ⟨"Beta", some 5, some 1⟩]
      = some ("Beta", false) :=
  (follow_up_uses_cache
      [⟨"Alpha", some 4, some 10⟩, ⟨"Beta", some 5, some 1⟩]
      ⟨"Beta", some 5, some 1⟩ (by decide)).2.2

end HeyPico
